import Mathlib

/-!
Shallow embedding of the `tofo` transit planner core, covering
`tofo/scheduler/transit_scheduler.py` (sequence enumeration) and
`tofo/targets.py` (per-target occurrence computation), together with the
verification of the specification claims about them.

Times and durations are rational numbers, measured in minutes; astropy
`Time`/`Quantity` arithmetic on scalars is exact for the order-theoretic
properties at stake.  External astronomical computations (eclipse
ephemerides, per-time constraint evaluation, light-travel-time deltas) are
oracles supplied through an `Env` record, mirroring how the Python code
delegates them to `astroplan`/`astropy`.
-/

/-! ## Scheduler embedding (`tofo/scheduler/transit_scheduler.py`) -/

/-- Embeds the name-splitting done in `TransitScheduler._find_all`:
`if '|' in e: ename, _ = e.split("|") else: ename = e` — the part of the node
name before the first `|` separator, or the whole name when there is none
(for a name with exactly one separator this is `e.split("|")[0]`; the source
raises a `ValueError` on names with two or more separators, which never arise
from the `"name|n"` convention used to build node names). -/
def target_id (e : String) : String :=
  if '|' ∈ e.data then String.mk (e.data.takeWhile (fun c => c ≠ '|')) else e

/-- Embeds lines 110-113 of `_find_all`: the transition returned by the
transitioner contributes its duration, and a falsy (`None`) transition
contributes `0.0 * u.minute`. -/
def overhead (f : String → String → Option ℚ) (a b : String) : ℚ :=
  (f a b).getD 0

/-- Error message produced when the absent (`None`) transitioner is called
(Python raises `TypeError: 'NoneType' object is not callable`). -/
def transNoneMsg : String := "TypeError: NoneType object is not callable"

/-- State of a `TransitScheduler` as far as `_find_all_sequences`/`_find_all`
read it: the sorted name list (`self.target_name`), the per-name start and end
times (`self.target_data[n][1]` and `self.target_data[n][2]`), and the
optional transitioner.  The transitioner is a function of the two adjacent
nodes (the observing blocks and the observer passed in the source are
determined by the node names and the fixed scheduler state); it returns the
optional transition block's duration. -/
structure Sched where
  target_name : List String
  start_ : String → ℚ
  end_ : String → ℚ
  transitioner : Option (String → String → Option ℚ)

/-- Embeds the `for ie2, e2 in enumerate(local_l)` loop body of
`TransitScheduler._find_all` (lines 101-124).  `e` is the current chain tail,
`ename` its target id, `ws` the chain built so far, and the list argument is
the remaining candidate suffix (`local_l`).  At each successful extension the
new chain is emitted, the search recurses on the strictly later suffix
(`local_l[ie2+1:]`), and the loop then continues with the original `ws`.
The transitioner is called exactly where the source calls it, so a `None`
transitioner raises at the first candidate pair with distinct target ids. -/
def Sched.find_all_loop (s : Sched) (e ename : String) (ws : List String) :
    List String → Except String (List (List String))
  | [] => .ok []
  | e2 :: rest =>
    if ename = target_id e2 then
      s.find_all_loop e ename ws rest
    else
      match s.transitioner with
      | none => .error transNoneMsg
      | some f =>
        let dur := overhead f e e2
        if s.end_ e + dur ≤ s.start_ e2 then
          let local_ws := if ws.isEmpty then [e, e2] else ws ++ [e2]
          match s.find_all_loop e2 (target_id e2) local_ws rest,
                s.find_all_loop e ename ws rest with
          | .ok r, .ok more => .ok (local_ws :: (r ++ more))
          | .error msg, _ => .error msg
          | _, .error msg => .error msg
        else
          s.find_all_loop e ename ws rest

/-- Embeds `TransitScheduler._find_all` (lines 85-124): empty candidate list
returns `[]`; when `e` is `None` the head of the list is popped and used as
the chain tail; otherwise the whole list is scanned against the given `e`. -/
def Sched.find_all (s : Sched) :
    List String → List String → Option String → Except String (List (List String))
  | [], _, _ => .ok []
  | x :: xs, ws, some e0 => s.find_all_loop e0 (target_id e0) ws (x :: xs)
  | x :: xs, ws, none => s.find_all_loop x (target_id x) ws xs

/-- Embeds the `while local_l` loop of `TransitScheduler._find_all_sequences`
(lines 75-83): pop each head in turn and search for chains starting at it in
the remaining suffix, accumulating all results in order. -/
def Sched.fas_go (s : Sched) : List String → Except String (List (List String))
  | [] => .ok []
  | e :: rest =>
    match s.find_all rest [] (some e), s.fas_go rest with
    | .ok r, .ok more => .ok (r ++ more)
    | .error msg, _ => .error msg
    | _, .error msg => .error msg

/-- Embeds `TransitScheduler._find_all_sequences`, the producer of
`self.possible_sequences`. -/
def Sched.find_all_sequences (s : Sched) : Except String (List (List String)) :=
  s.fas_go s.target_name

/-- Pairwise compatibility actually enforced by `_find_all` between a chain
tail `a` and its extension `b`: distinct target ids (the `continue` guard)
and `target_data[a][2] + dur <= target_data[b][1]` (the time guard). -/
def compatR (s : Sched) (f : String → String → Option ℚ) (a b : String) : Prop :=
  target_id a ≠ target_id b ∧ s.end_ a + overhead f a b ≤ s.start_ b

/-- Zero-overhead transitioner (always returns a falsy transition). -/
def zeroTrans : String → String → Option ℚ := fun _ _ => none

/-- Concrete scheduler with three single-occurrence targets
A `[10:00,10:20]`, B `[10:25,10:45]`, C `[10:50,11:10]` (minutes of day)
and zero transition overhead — the scenario of spec §8. -/
def sched3 : Sched where
  target_name := ["A", "B", "C"]
  start_ := fun n => if n = "A" then 600 else if n = "B" then 625 else 650
  end_ := fun n => if n = "A" then 620 else if n = "B" then 645 else 670
  transitioner := some zeroTrans

/-- Concrete scheduler where target A has two occurrences `A|0 [10:00,10:20]`
and `A|1 [11:00,11:20]` and target B one occurrence `B|0 [10:25,10:45]`,
with zero transition overhead. -/
def schedRep : Sched where
  target_name := ["A|0", "B|0", "A|1"]
  start_ := fun n => if n = "A|0" then 600 else if n = "B|0" then 625 else 660
  end_ := fun n => if n = "A|0" then 620 else if n = "B|0" then 645 else 680
  transitioner := some zeroTrans

theorem sched3_run : sched3.find_all_sequences =
    .ok [["A", "B"], ["A", "B", "C"], ["A", "C"], ["B", "C"]] := by
  norm_num [Sched.find_all_sequences, Sched.fas_go, Sched.find_all,
    Sched.find_all_loop, sched3, overhead, zeroTrans,
    show target_id "A" = "A" from by decide,
    show target_id "B" = "B" from by decide,
    show target_id "C" = "C" from by decide,
    show ("A":String) ≠ "B" from by decide, show ("A":String) ≠ "C" from by decide,
    show ("B":String) ≠ "A" from by decide, show ("B":String) ≠ "C" from by decide,
    show ("C":String) ≠ "A" from by decide, show ("C":String) ≠ "B" from by decide]

theorem schedRep_run : schedRep.find_all_sequences =
    .ok [["A|0", "B|0"], ["A|0", "B|0", "A|1"], ["B|0", "A|1"]] := by
  norm_num [Sched.find_all_sequences, Sched.fas_go, Sched.find_all,
    Sched.find_all_loop, schedRep, overhead, zeroTrans,
    show target_id "A|0" = "A" from by decide,
    show target_id "B|0" = "B" from by decide,
    show target_id "A|1" = "A" from by decide,
    show ("A":String) ≠ "B" from by decide, show ("B":String) ≠ "A" from by decide,
    show ("A|0":String) ≠ "B|0" from by decide, show ("A|0":String) ≠ "A|1" from by decide,
    show ("B|0":String) ≠ "A|0" from by decide, show ("B|0":String) ≠ "A|1" from by decide,
    show ("A|1":String) ≠ "A|0" from by decide, show ("A|1":String) ≠ "B|0" from by decide]

/-! ## Scheduler theorems: adjacency invariants of `_find_all` -/

theorem find_all_loop_chain (s : Sched) (f : String → String → Option ℚ)
    (hf : s.transitioner = some f) (l : List String) :
    ∀ (e : String) (ws : List String) (res : List (List String)),
      s.find_all_loop e (target_id e) ws l = .ok res →
      ws = [] ∨ (ws.getLast? = some e ∧ ws.Chain' (compatR s f)) →
      ∀ seq ∈ res, seq.Chain' (compatR s f) := by
  induction l with
  | nil =>
    intro e ws res h _ seq hseq
    simp only [Sched.find_all_loop] at h
    cases h
    simp at hseq
  | cons e2 rest ih =>
    intro e ws res h hws seq hseq
    simp only [Sched.find_all_loop] at h
    by_cases hid : target_id e = target_id e2
    · rw [if_pos hid] at h
      exact ih e ws res h hws seq hseq
    · rw [if_neg hid] at h
      simp only [hf] at h
      by_cases hle : s.end_ e + overhead f e e2 ≤ s.start_ e2
      · rw [if_pos hle] at h
        have hcomp : compatR s f e e2 := ⟨hid, hle⟩
        cases h1 : s.find_all_loop e2 (target_id e2)
            (if ws.isEmpty then [e, e2] else ws ++ [e2]) rest with
        | error m => simp only [h1] at h; cases h
        | ok r =>
          cases h2 : s.find_all_loop e (target_id e) ws rest with
          | error m => simp only [h1, h2] at h; cases h
          | ok more =>
            simp only [h1, h2] at h
            injection h with h
            subst h
            have hlws_chain :
                (if ws.isEmpty then [e, e2] else ws ++ [e2]).Chain' (compatR s f) := by
              rcases hws with hws | ⟨hlast, hchain⟩
              · subst hws
                simp [List.chain'_cons, hcomp]
              · have hne : ws ≠ [] := by
                  intro hc; rw [hc] at hlast; simp at hlast
                rw [if_neg (by simpa [List.isEmpty_iff] using hne)]
                rw [List.chain'_append]
                refine ⟨hchain, List.chain'_singleton _, ?_⟩
                intro x hx y hy
                rw [hlast] at hx
                simp at hx hy
                subst hx; subst hy
                exact hcomp
            have hlws_last :
                (if ws.isEmpty then [e, e2] else ws ++ [e2]).getLast? = some e2 := by
              by_cases hwe : ws.isEmpty
              · rw [if_pos hwe]; rfl
              · rw [if_neg hwe]; exact List.getLast?_concat _
            rcases List.mem_cons.mp hseq with rfl | hseq'
            · exact hlws_chain
            · rcases List.mem_append.mp hseq' with hr | hm
              · exact ih e2 _ r h1 (Or.inr ⟨hlws_last, hlws_chain⟩) seq hr
              · exact ih e ws more h2 hws seq hm
      · rw [if_neg hle] at h
        exact ih e ws res h hws seq hseq

theorem find_all_sequences_chain (s : Sched) (f : String → String → Option ℚ)
    (hf : s.transitioner = some f) (res : List (List String))
    (h : s.find_all_sequences = .ok res) :
    ∀ seq ∈ res, seq.Chain' (compatR s f) := by
  rw [Sched.find_all_sequences] at h
  revert res
  induction s.target_name with
  | nil =>
    intro res h seq hseq
    simp only [Sched.fas_go] at h
    cases h; simp at hseq
  | cons e rest ih =>
    intro res h seq hseq
    simp only [Sched.fas_go] at h
    cases h1 : s.find_all rest [] (some e) with
    | error m => simp only [h1] at h; cases h
    | ok r =>
      cases h2 : s.fas_go rest with
      | error m => simp only [h1, h2] at h; cases h
      | ok more =>
        simp only [h1, h2] at h
        injection h with h
        subst h
        rcases List.mem_append.mp hseq with hr | hm
        · cases rest with
          | nil => simp only [Sched.find_all] at h1; injection h1 with h1; subst h1; simp at hr
          | cons x xs =>
            simp only [Sched.find_all] at h1
            exact find_all_loop_chain s f hf _ e [] r h1 (Or.inl rfl) seq hr
        · exact ih more h2 seq hm

/-- C1: for every sequence returned by the scheduler (every list in
`possible_sequences`, produced by `_find_all`), every pair of adjacent
elements `(A, B)` satisfies `end(A) + overhead(A, B) ≤ start(B)`, where the
overhead is the transition duration and `0` when the transitioner returns a
falsy transition. -/
theorem C1_adjacent_compatible (s : Sched) (f : String → String → Option ℚ)
    (res : List (List String)) (seq : List String)
    (hf : s.transitioner = some f)
    (h : s.find_all_sequences = .ok res) (hseq : seq ∈ res) :
    seq.Chain' (fun a b => s.end_ a + overhead f a b ≤ s.start_ b) :=
  List.Chain'.imp (fun _ _ hab => hab.2)
    (find_all_sequences_chain s f hf res h seq hseq)

/-- Witness for C1 at the concrete three-target scheduler. -/
theorem C1_witness :
    List.Chain' (fun a b => sched3.end_ a + overhead zeroTrans a b ≤ sched3.start_ b)
      ["A", "B", "C"] :=
  C1_adjacent_compatible sched3 zeroTrans
    [["A", "B"], ["A", "B", "C"], ["A", "C"], ["B", "C"]] ["A", "B", "C"]
    rfl sched3_run (by simp)

/-- C2 counterexample: the scheduler state `schedRep` (two occurrences of
target A around one occurrence of target B) returns the sequence
`["A|0", "B|0", "A|1"]`, which contains two non-adjacent elements with the
same target identity `A` — refuting the claim that no two elements of a
returned sequence share a target identity. -/
theorem C2_counterexample :
    schedRep.find_all_sequences =
      .ok [["A|0", "B|0"], ["A|0", "B|0", "A|1"], ["B|0", "A|1"]] ∧
    ["A|0", "B|0", "A|1"] ∈ [["A|0", "B|0"], ["A|0", "B|0", "A|1"], ["B|0", "A|1"]] ∧
    ¬ List.Pairwise (fun a b => target_id a ≠ target_id b) ["A|0", "B|0", "A|1"] :=
  ⟨schedRep_run, by simp, by decide⟩

/-- C2 amended: in every returned sequence, *adjacent* elements always have
distinct target identities (the `ename == e2name: continue` guard applies
only to the current chain tail, so non-adjacent repeats are possible). -/
theorem C2_adjacent_distinct (s : Sched) (f : String → String → Option ℚ)
    (res : List (List String)) (seq : List String)
    (hf : s.transitioner = some f)
    (h : s.find_all_sequences = .ok res) (hseq : seq ∈ res) :
    seq.Chain' (fun a b => target_id a ≠ target_id b) :=
  List.Chain'.imp (fun _ _ hab => hab.1)
    (find_all_sequences_chain s f hf res h seq hseq)

/-- Witness for the amended C2 at the concrete repeated-target scheduler. -/
theorem C2_witness :
    List.Chain' (fun a b => target_id a ≠ target_id b) ["A|0", "B|0", "A|1"] :=
  C2_adjacent_distinct schedRep zeroTrans
    [["A|0", "B|0"], ["A|0", "B|0", "A|1"], ["B|0", "A|1"]] ["A|0", "B|0", "A|1"]
    rfl schedRep_run (by simp)

/-! ## Scheduler theorems: `None` transitioner (C9) -/

theorem find_all_loop_none_err (s : Sched) (hn : s.transitioner = none)
    (l : List String) :
    ∀ (e ename : String) (ws : List String), (∃ e2 ∈ l, ename ≠ target_id e2) →
      s.find_all_loop e ename ws l = .error transNoneMsg := by
  induction l with
  | nil =>
    intro e ename ws hex
    rcases hex with ⟨x, hx, _⟩
    simp at hx
  | cons e2 rest ih =>
    intro e ename ws hex
    simp only [Sched.find_all_loop]
    by_cases hid : ename = target_id e2
    · rw [if_pos hid]
      apply ih
      rcases hex with ⟨x, hx, hne⟩
      rcases List.mem_cons.mp hx with rfl | hx'
      · exact absurd hid hne
      · exact ⟨x, hx', hne⟩
    · rw [if_neg hid]
      simp only [hn]

/-- C9: when the scheduler is constructed with `transitioner = None`, the
first candidate pair with distinct target identities reached inside
`_find_all` raises (`TypeError` from calling `None`) instead of being
treated as zero overhead: whenever the candidate list holds any node with a
target identity different from the chain tail's, `_find_all` fails. -/
theorem C9_none_transitioner_errors (s : Sched) (names ws : List String)
    (e : String) (hn : s.transitioner = none)
    (hex : ∃ e2 ∈ names, target_id e2 ≠ target_id e) :
    s.find_all names ws (some e) = .error transNoneMsg := by
  cases names with
  | nil => rcases hex with ⟨x, hx, _⟩; simp at hx
  | cons x xs =>
    simp only [Sched.find_all]
    apply find_all_loop_none_err s hn
    rcases hex with ⟨y, hy, hne⟩
    exact ⟨y, hy, fun hc => hne (hc ▸ rfl)⟩

/-- Scheduler state with an absent (`None`) transitioner. -/
def schedNone : Sched where
  target_name := ["A", "B"]
  start_ := fun _ => 0
  end_ := fun _ => 0
  transitioner := none

/-- Witness for C9: the concrete `None`-transitioner scheduler fails on the
candidate pair `("A", "B")`. -/
theorem C9_witness : schedNone.find_all ["B"] [] (some "A") = .error transNoneMsg :=
  C9_none_transitioner_errors schedNone ["B"] [] "A" rfl
    ⟨"B", by simp, by decide⟩

/-! ## Scheduler theorems: prefix-inclusive enumeration (C3) -/

/-- The chain that a loop invocation of `_find_all` extends: the accumulated
`ws` when non-empty, otherwise the singleton chain tail (`local_ws = [e, e2]`
starts from `e`). -/
def chainBase (e : String) (ws : List String) : List String :=
  if ws.isEmpty then [e] else ws

theorem find_all_loop_take (s : Sched) (l : List String) :
    ∀ (e ename : String) (ws : List String) (res : List (List String)),
      s.find_all_loop e ename ws l = .ok res →
      ∀ seq ∈ res,
        (∃ tl, tl ≠ [] ∧ seq = chainBase e ws ++ tl) ∧
        ∀ k, (chainBase e ws).length + 1 ≤ k → k < seq.length → seq.take k ∈ res := by
  induction l with
  | nil =>
    intro e ename ws res h seq hseq
    simp only [Sched.find_all_loop] at h
    cases h
    simp at hseq
  | cons e2 rest ih =>
    intro e ename ws res h seq hseq
    simp only [Sched.find_all_loop] at h
    by_cases hid : ename = target_id e2
    · rw [if_pos hid] at h
      exact ih e ename ws res h seq hseq
    · rw [if_neg hid] at h
      cases htr : s.transitioner with
      | none => simp only [htr] at h; cases h
      | some f =>
        simp only [htr] at h
        by_cases hle : s.end_ e + overhead f e e2 ≤ s.start_ e2
        · rw [if_pos hle] at h
          have hlws : (if ws.isEmpty then [e, e2] else ws ++ [e2]) =
              chainBase e ws ++ [e2] := by
            by_cases hwe : ws.isEmpty
            · rw [if_pos hwe, chainBase, if_pos hwe]; rfl
            · rw [if_neg hwe, chainBase, if_neg hwe]
          rw [hlws] at h
          cases h1 : s.find_all_loop e2 (target_id e2) (chainBase e ws ++ [e2]) rest with
          | error m => simp only [h1] at h; cases h
          | ok r =>
            cases h2 : s.find_all_loop e ename ws rest with
            | error m => simp only [h1, h2] at h; cases h
            | ok more =>
              simp only [h1, h2] at h
              injection h with h
              subst h
              have hbase2 : chainBase e2 (chainBase e ws ++ [e2]) =
                  chainBase e ws ++ [e2] := by
                rw [chainBase, if_neg (by simp)]
              have hlen2 : (chainBase e ws ++ [e2]).length =
                  (chainBase e ws).length + 1 := by simp
              rcases List.mem_cons.mp hseq with rfl | hseq'
              · refine ⟨⟨[e2], by simp, rfl⟩, ?_⟩
                intro k hk1 hk2
                rw [hlen2] at hk2
                omega
              · rcases List.mem_append.mp hseq' with hr | hm
                · have hih := ih e2 (target_id e2) (chainBase e ws ++ [e2]) r h1 seq hr
                  rw [hbase2] at hih
                  rcases hih with ⟨⟨tl, htl, hform⟩, htake⟩
                  constructor
                  · exact ⟨[e2] ++ tl, by simp, by rw [hform, List.append_assoc]⟩
                  · intro k hk1 hkl
                    rcases Nat.lt_or_ge k ((chainBase e ws ++ [e2]).length + 1) with hlt | hge
                    · have hkeq : k = (chainBase e ws ++ [e2]).length := by
                        rw [hlen2] at hlt ⊢; omega
                      have : seq.take k = chainBase e ws ++ [e2] := by
                        rw [hform, hkeq, List.take_left]
                      rw [this]
                      exact List.mem_cons_self _ _
                    · have := htake k hge hkl
                      exact List.mem_cons_of_mem _ (List.mem_append.mpr (Or.inl this))
                · have hih := ih e ename ws more h2 seq hm
                  rcases hih with ⟨hform, htake⟩
                  refine ⟨hform, ?_⟩
                  intro k hk1 hkl
                  exact List.mem_cons_of_mem _
                    (List.mem_append.mpr (Or.inr (htake k hk1 hkl)))
        · rw [if_neg hle] at h
          exact ih e ename ws res h seq hseq

theorem find_all_sequences_take (s : Sched) (res : List (List String))
    (h : s.find_all_sequences = .ok res) :
    ∀ seq ∈ res, ∀ k, 2 ≤ k → k < seq.length → seq.take k ∈ res := by
  rw [Sched.find_all_sequences] at h
  revert res
  induction s.target_name with
  | nil =>
    intro res h seq hseq
    simp only [Sched.fas_go] at h
    cases h
    simp at hseq
  | cons e rest ih =>
    intro res h seq hseq k hk2 hkl
    simp only [Sched.fas_go] at h
    cases h1 : s.find_all rest [] (some e) with
    | error m => simp only [h1] at h; cases h
    | ok r =>
      cases h2 : s.fas_go rest with
      | error m => simp only [h1, h2] at h; cases h
      | ok more =>
        simp only [h1, h2] at h
        injection h with h
        subst h
        rcases List.mem_append.mp hseq with hr | hm
        · cases rest with
          | nil =>
            simp only [Sched.find_all] at h1
            injection h1 with h1
            subst h1
            simp at hr
          | cons x xs =>
            simp only [Sched.find_all] at h1
            have htk := (find_all_loop_take s (x :: xs) e (target_id e) [] r h1 seq hr).2
              k (by simpa [chainBase] using hk2) hkl
            exact List.mem_append.mpr (Or.inl htk)
        · exact List.mem_append.mpr (Or.inr (ih more h2 seq hm k hk2 hkl))

/-- C3 (amended, universal part): the enumeration is prefix-inclusive — for
every sequence in the result set of `_find_all_sequences`, every prefix of
length `k` with `2 ≤ k < n` is also in the result set. -/
theorem C3_prefix_inclusive (s : Sched) (res : List (List String))
    (seq : List String) (k : ℕ)
    (h : s.find_all_sequences = .ok res) (hseq : seq ∈ res)
    (hk2 : 2 ≤ k) (hkl : k < seq.length) : seq.take k ∈ res :=
  find_all_sequences_take s res h seq hseq k hk2 hkl

/-- C3 counterexample: on the three-target zero-overhead scenario
(A `[10:00,10:20]`, B `[10:25,10:45]`, C `[10:50,11:10]`) the result set is
not exactly `{[A,B],[B,C],[A,B,C]}` — it also contains `[A,C]` (A ends at
10:20, C starts at 10:50, so the pair is compatible too). -/
theorem C3_counterexample :
    sched3.find_all_sequences =
      .ok [["A", "B"], ["A", "B", "C"], ["A", "C"], ["B", "C"]] ∧
    ["A", "C"] ∈ [["A", "B"], ["A", "B", "C"], ["A", "C"], ["B", "C"]] ∧
    ["A", "C"] ∉ [["A", "B"], ["B", "C"], ["A", "B", "C"]] :=
  ⟨sched3_run, by simp, by decide⟩

/-- Witness for C3 at the concrete scenario: the length-2 prefix of
`[A,B,C]` is in the result set. -/
theorem C3_witness :
    ["A", "B", "C"].take 2 ∈ [["A", "B"], ["A", "B", "C"], ["A", "C"], ["B", "C"]] :=
  C3_prefix_inclusive sched3
    [["A", "B"], ["A", "B", "C"], ["A", "C"], ["B", "C"]] ["A", "B", "C"] 2
    sched3_run (by simp) (by norm_num) (by norm_num)

/-! ## Target embedding (`tofo/targets.py`) -/

/-- A scalar `astropy` quantity as `targets.py` uses it: either a real value
or `NaN` (the code distinguishes `None`, `NaN` and real values). -/
inductive FQ where
  | nan : FQ
  | val : ℚ → FQ
deriving DecidableEq

/-- Python comparison on possibly-NaN quantities: any comparison with `NaN`
is false. -/
def fqLe (a b : FQ) : Bool :=
  match a, b with
  | FQ.val x, FQ.val y => decide (x ≤ y)
  | _, _ => false

/-- The external astronomical services used by `targets.py`, as oracles:
the site margin configuration (`Observatory.exo_hours_before/after`, read
from the config dictionary with no sign restriction), the per-time
constraint conjunction evaluated by `astroplan.is_event_observable`
(together with the site constraint set and the fixed target coordinate),
the per-time barycentric `light_travel_time` delta, and
`EclipsingSystem.next_primary_eclipse_time` (arguments: epoch, period,
start time, requested count). -/
structure Env where
  exo_hours_before : ℚ
  exo_hours_after : ℚ
  observable : ℚ → Bool
  ltt : ℚ → ℚ
  next_eclipses : ℚ → ℚ → ℚ → ℕ → List ℚ

/-- State of a `Target` as far as the claims read it.  `ra_j2000`,
`dec_j2000` and `name` stand for their Python truthiness (`""` is falsy);
`epoch` and `period` are optional; `duration` and `observation_duration`
are optional and possibly-NaN quantities.  Times are rationals in minutes. -/
structure Target where
  ra_j2000 : String
  dec_j2000 : String
  name : String
  epoch : Option ℚ
  period : Option ℚ
  duration : Option FQ
  observation_time : Option ℚ
  observation_duration : Option FQ
  observable_targets_all_times : List ℚ
  observable_targets_some_times : List ℚ

/-- Embeds the `observation_end_time` property (targets.py lines 283-288):
`None` when start time or duration is `None`, otherwise start plus duration
(a `NaN` duration yields a `NaN` end time, which is *not* `None`). -/
def Target.observation_end_time (tg : Target) : Option FQ :=
  match tg.observation_time, tg.observation_duration with
  | some t0, some (FQ.val d) => some (FQ.val (t0 + d))
  | some _, some FQ.nan => some FQ.nan
  | _, _ => none

/-- A 5-point transit window `(window_start, ingress, mid, egress,
window_end)`. -/
abbrev T5 := ℚ × ℚ × ℚ × ℚ × ℚ

/-- The five points of a window as a list, in order. -/
def tupleList (t : T5) : List ℚ := [t.1, t.2.1, t.2.2.1, t.2.2.2.1, t.2.2.2.2]

/-- Embeds the half-duration offset `d` of `Target._transit_times`
(lines 192-196): `0.5 * u.minute` when duration is `None` or `NaN`,
otherwise `duration / 2.0`. -/
def Target.half_duration (tg : Target) : ℚ :=
  match tg.duration with
  | none => 1 / 2
  | some FQ.nan => 1 / 2
  | some (FQ.val v) => v / 2

/-- Embeds `Target._transit_times` (lines 189-206): the 5-point window
around a mid-time `t`, paired with the barycentric-corrected variant
(each point minus its light-travel delta). -/
def Target.transit_times (env : Env) (tg : Target) (t : ℚ) : T5 × T5 :=
  let d := tg.half_duration
  let tt : T5 := (t - d - env.exo_hours_before, t - d, t, t + d,
                  t + d + env.exo_hours_after)
  (tt, (tt.1 - env.ltt tt.1, tt.2.1 - env.ltt tt.2.1, tt.2.2.1 - env.ltt tt.2.2.1,
        tt.2.2.2.1 - env.ltt tt.2.2.2.1, tt.2.2.2.2 - env.ltt tt.2.2.2.2))

/-- Embeds `Target.check_observability` (lines 149-175): candidate mid-times
are first *filtered* to the observation bracket
(`observation_time <= t <= observation_end_time`), then for each retained
window the per-point visibility list is computed (the `for _, times in
all_transit_times` unpacking samples the *corrected* tuple) under the
`TimeConstraint` plus the site constraints, and the pair
`(all(vis), any(vis))` is produced — one pair per *retained* time, not per
input time.  Outside `_calc_transits`' guard (no observation bracket) the
Python code would raise; that case cannot arise from `_calc_transits`. -/
def Target.check_observability (env : Env) (tg : Target) (mid_times : List ℚ) :
    List (Bool × Bool) :=
  match tg.observation_time, tg.observation_end_time with
  | some t0, some te =>
    ((mid_times.filter (fun t => decide (t0 ≤ t) && fqLe (FQ.val t) te)).map
        (fun t => tg.transit_times env t)).map (fun tt =>
      let vis := (tupleList tt.2).map
        (fun t => decide (t0 ≤ t) && fqLe (FQ.val t) te && env.observable t)
      (vis.all id, vis.any id))
  | _, _ => []

/-- Embeds the candidate mid-time computation of `Target._calc_transits`
(lines 122-137): for a periodic target (epoch and period both present),
`ceil(observation_duration.to(day) / period)` occurrences are requested from
the ephemeris oracle starting at `observation_time`; otherwise the single
candidate `observation_time + observation_duration / 2.0` is synthesized.
`t0`/`dur` are the guarded observation start and duration. -/
def Target.midtransit_candidates (env : Env) (tg : Target) (t0 dur : ℚ) : List ℚ :=
  match tg.epoch, tg.period with
  | some ep, some per =>
    env.next_eclipses ep per t0 (Int.ceil ((dur / 1440) / per)).toNat
  | _, _ => [t0 + dur / 2]

/-- Embeds `Target._calc_transits` (lines 113-140): under the guard (all of
position, name, observation time present and observation duration non-`None`,
non-`NaN`), compute the candidate mid-times, compute their observability,
and store `[t for t, o in zip(midtransit_times, transit_observability) if
o[i]]` for the two flags — the zip pairs the *unfiltered* candidates with
the flags of the *filtered* ones. -/
def Target.calc_transits (env : Env) (tg : Target) : Target :=
  match tg.observation_time, tg.observation_duration with
  | some t0, some (FQ.val dur) =>
    if tg.ra_j2000 ≠ "" ∧ tg.dec_j2000 ≠ "" ∧ tg.name ≠ "" then
      let mid := tg.midtransit_candidates env t0 dur
      let obs := tg.check_observability env mid
      { tg with
        observable_targets_all_times :=
          ((mid.zip obs).filter (fun p => p.2.1)).map (fun p => p.1),
        observable_targets_some_times :=
          ((mid.zip obs).filter (fun p => p.2.2)).map (fun p => p.1) }
    else tg
  | _, _ => tg

/-- Embeds the `observation_time` setter (lines 307-310): assign, then
recompute transits synchronously. -/
def Target.observation_time_set (env : Env) (tg : Target) (t : Option ℚ) : Target :=
  Target.calc_transits env { tg with observation_time := t }

/-- Embeds the `observation_duration` setter (lines 312-315): assign, then
recompute transits synchronously. -/
def Target.observation_duration_set (env : Env) (tg : Target) (d : Option FQ) : Target :=
  Target.calc_transits env { tg with observation_duration := d }

/-- Embeds the `observation_end_time` setter (lines 317-320):
`duration = (t - self.observation_time).to(u.hour)` (a `TypeError` when the
start time is `None`), then assign through the `observation_duration`
setter.  No validation of the sign of the duration is performed. -/
def Target.observation_end_time_set (env : Env) (tg : Target) (t : ℚ) :
    Except String Target :=
  match tg.observation_time with
  | none => .error "TypeError: unsupported operand type"
  | some t0 => .ok (Target.observation_duration_set env tg (some (FQ.val (t - t0))))

/-- Embeds the target-normalisation loop of `TransitScheduler.__init__`
(transit_scheduler.py lines 46-51) for one target: if `observation_time` is
`None` set it to the scheduler's start time, then if `observation_end_time`
is `None` set it to the scheduler's end time (each through the recomputing
setters). -/
def normalize_target (env : Env) (sT eT : ℚ) (tg : Target) : Except String Target :=
  let tg1 := if tg.observation_time = none
    then Target.observation_time_set env tg (some sT) else tg
  if tg1.observation_end_time = none then Target.observation_end_time_set env tg1 eT
  else .ok tg1

/-- Embeds the whole `for t in self.targets` normalisation loop of
`TransitScheduler.__init__`, returning the updated target list (the Python
code mutates the caller-supplied objects in place). -/
def init_targets (env : Env) (sT eT : ℚ) : List Target → Except String (List Target)
  | [] => .ok []
  | t :: ts =>
    match normalize_target env sT eT t, init_targets env sT eT ts with
    | .ok t2, .ok ts2 => .ok (t2 :: ts2)
    | .error m, _ => .error m
    | _, .error m => .error m

/-! ## Target theorems -/

theorem calc_transits_obsfields (env : Env) (tg : Target) :
    (Target.calc_transits env tg).observation_time = tg.observation_time ∧
    (Target.calc_transits env tg).observation_duration = tg.observation_duration ∧
    (Target.calc_transits env tg).duration = tg.duration ∧
    (Target.calc_transits env tg).epoch = tg.epoch ∧
    (Target.calc_transits env tg).period = tg.period := by
  unfold Target.calc_transits
  split
  · split
    · exact ⟨rfl, rfl, rfl, rfl, rfl⟩
    · exact ⟨rfl, rfl, rfl, rfl, rfl⟩
  · exact ⟨rfl, rfl, rfl, rfl, rfl⟩

theorem observation_time_set_fields (env : Env) (tg : Target) (t : Option ℚ) :
    (Target.observation_time_set env tg t).observation_time = t ∧
    (Target.observation_time_set env tg t).observation_duration =
      tg.observation_duration := by
  unfold Target.observation_time_set
  exact ⟨(calc_transits_obsfields env _).1, (calc_transits_obsfields env _).2.1⟩

theorem observation_duration_set_fields (env : Env) (tg : Target) (d : Option FQ) :
    (Target.observation_duration_set env tg d).observation_time =
      tg.observation_time ∧
    (Target.observation_duration_set env tg d).observation_duration = d := by
  unfold Target.observation_duration_set
  exact ⟨(calc_transits_obsfields env _).1, (calc_transits_obsfields env _).2.1⟩

/-- Environment with strictly positive site margins (one hour each). -/
def envPos : Env where
  exo_hours_before := 60
  exo_hours_after := 60
  observable := fun _ => true
  ltt := fun _ => 0
  next_eclipses := fun _ _ _ _ => []

/-- Environment whose pre-ingress margin is configured as zero (nothing in
the code restricts `config['exo_hours_before']` to be positive). -/
def envZeroMargin : Env where
  exo_hours_before := 0
  exo_hours_after := 60
  observable := fun _ => true
  ltt := fun _ => 0
  next_eclipses := fun _ _ _ _ => []

/-- A non-periodic target with a resolved position, a name, an observation
bracket `[600, 780]` (minutes) and no event duration. -/
def tgPlain : Target where
  ra_j2000 := "10 00 00"
  dec_j2000 := "+10 00 00"
  name := "X"
  epoch := none
  period := none
  duration := none
  observation_time := some 600
  observation_duration := some (FQ.val 180)
  observable_targets_all_times := []
  observable_targets_some_times := []

/-- C5 (amended): the 5-point tuple of `_transit_times` is strictly
increasing whenever both site margins are strictly positive and the
effective half-duration is positive (which holds when the event duration is
unknown — the `0.5`-minute placeholder — or positive). -/
theorem C5_strict_ordering (env : Env) (tg : Target) (t : ℚ)
    (hb : 0 < env.exo_hours_before) (ha : 0 < env.exo_hours_after)
    (hd : 0 < tg.half_duration) :
    (Target.transit_times env tg t).1.1 < (Target.transit_times env tg t).1.2.1 ∧
    (Target.transit_times env tg t).1.2.1 < (Target.transit_times env tg t).1.2.2.1 ∧
    (Target.transit_times env tg t).1.2.2.1 <
      (Target.transit_times env tg t).1.2.2.2.1 ∧
    (Target.transit_times env tg t).1.2.2.2.1 <
      (Target.transit_times env tg t).1.2.2.2.2 := by
  dsimp only [Target.transit_times]
  exact ⟨by linarith, by linarith, by linarith, by linarith⟩

/-- C5 counterexample: with a zero pre-ingress margin (a site configuration
the code accepts), `window_start = ingress`, so the claimed strict ordering
fails for that configuration. -/
theorem C5_counterexample :
    ¬ ((Target.transit_times envZeroMargin tgPlain 700).1.1 <
        (Target.transit_times envZeroMargin tgPlain 700).1.2.1 ∧
       (Target.transit_times envZeroMargin tgPlain 700).1.2.1 <
        (Target.transit_times envZeroMargin tgPlain 700).1.2.2.1 ∧
       (Target.transit_times envZeroMargin tgPlain 700).1.2.2.1 <
        (Target.transit_times envZeroMargin tgPlain 700).1.2.2.2.1 ∧
       (Target.transit_times envZeroMargin tgPlain 700).1.2.2.2.1 <
        (Target.transit_times envZeroMargin tgPlain 700).1.2.2.2.2) := by
  intro h
  exact absurd h.1
    (by norm_num [Target.transit_times, Target.half_duration, tgPlain, envZeroMargin])

/-- Witness for the amended C5 at a positive-margin configuration. -/
theorem C5_witness :
    (Target.transit_times envPos tgPlain 700).1.1 <
      (Target.transit_times envPos tgPlain 700).1.2.1 ∧
    (Target.transit_times envPos tgPlain 700).1.2.1 <
      (Target.transit_times envPos tgPlain 700).1.2.2.1 ∧
    (Target.transit_times envPos tgPlain 700).1.2.2.1 <
      (Target.transit_times envPos tgPlain 700).1.2.2.2.1 ∧
    (Target.transit_times envPos tgPlain 700).1.2.2.2.1 <
      (Target.transit_times envPos tgPlain 700).1.2.2.2.2 :=
  C5_strict_ordering envPos tgPlain 700 (by norm_num [envPos])
    (by norm_num [envPos]) (by norm_num [Target.half_duration, tgPlain])

/-- C7: for a non-periodic target (epoch or period absent) with a resolved
position, a name, an observation time and a non-NaN observation duration,
`_calc_transits` synthesizes exactly one candidate occurrence, whose
mid-time `observation_time + observation_duration/2` is the midpoint of the
observation bracket `[t0, t0 + dur]`. -/
theorem C7_nonperiodic_single (env : Env) (tg : Target) (t0 dur : ℚ)
    (hep : tg.epoch = none ∨ tg.period = none)
    (hra : tg.ra_j2000 ≠ "") (hdec : tg.dec_j2000 ≠ "") (hname : tg.name ≠ "")
    (ht : tg.observation_time = some t0)
    (hd : tg.observation_duration = some (FQ.val dur)) :
    Target.midtransit_candidates env tg t0 dur = [t0 + dur / 2] ∧
    t0 + dur / 2 = (t0 + (t0 + dur)) / 2 := by
  constructor
  · cases he : tg.epoch <;> cases hp : tg.period <;>
      simp_all [Target.midtransit_candidates]
  · ring

/-- Witness for C7: the bracket `[600, 780]` yields the single candidate
centered at `690`. -/
theorem C7_witness :
    Target.midtransit_candidates envPos tgPlain 600 180 = [600 + 180 / 2] ∧
    (600 : ℚ) + 180 / 2 = (600 + (600 + 180)) / 2 :=
  C7_nonperiodic_single envPos tgPlain 600 180 (Or.inl rfl)
    (by decide) (by decide) (by decide) rfl rfl

/-- Target like `tgPlain` but with an empty name (the name does not matter
for the bracket setter). -/
def tgNoName : Target :=
  { tgPlain with name := "" }

/-- Expected result of setting an end time `540` before the start time `600`
on `tgNoName`: the negative duration `-60` is silently stored. -/
def tgNoNameAfter : Target :=
  { tgNoName with observation_duration := some (FQ.val (-60)) }

/-- C8 counterexample: setting `observation_end_time = 540` on a target
whose `observation_time` is `600` (end before start) succeeds — no
`InvalidBracket` (or any) error is raised; the setter silently stores the
negative duration `540 - 600 = -60`. -/
theorem C8_counterexample :
    Target.observation_end_time_set envPos tgNoName 540 = .ok tgNoNameAfter ∧
    (540 : ℚ) < 600 := by
  constructor
  · norm_num [Target.observation_end_time_set, Target.observation_duration_set,
      Target.calc_transits, tgNoName, tgNoNameAfter, tgPlain]
  · norm_num

/-- C8 amended: the `observation_end_time` setter accepts any end time,
including one at or before the start time: it returns successfully (through
the duration setter, which recomputes transits) and stores the possibly
non-positive duration `t - observation_time`; no error of any kind is
raised and no `InvalidBracket` exists in the code. -/
theorem C8_silently_accepts (env : Env) (tg : Target) (t0 t : ℚ)
    (h : tg.observation_time = some t0) :
    Target.observation_end_time_set env tg t =
      .ok (Target.observation_duration_set env tg (some (FQ.val (t - t0)))) ∧
    (Target.observation_duration_set env tg
      (some (FQ.val (t - t0)))).observation_duration = some (FQ.val (t - t0)) := by
  constructor
  · simp only [Target.observation_end_time_set, h]
  · exact (observation_duration_set_fields env tg _).2

/-- Witness for the amended C8. -/
theorem C8_witness :
    Target.observation_end_time_set envPos tgPlain 540 =
      .ok (Target.observation_duration_set envPos tgPlain (some (FQ.val (540 - 600)))) ∧
    (Target.observation_duration_set envPos tgPlain
      (some (FQ.val (540 - 600)))).observation_duration = some (FQ.val (540 - 600)) :=
  C8_silently_accepts envPos tgPlain 600 540 rfl

/-! ## C6: fully observable is a sub-list of partially observable -/

theorem filter_fst_sublist_filter_snd (l : List (ℚ × (Bool × Bool)))
    (h : ∀ p ∈ l, p.2.1 = true → p.2.2 = true) :
    List.Sublist ((l.filter (fun p => p.2.1)).map (fun p => p.1))
      ((l.filter (fun p => p.2.2)).map (fun p => p.1)) := by
  induction l with
  | nil => simp
  | cons a l ih =>
    have hal : ∀ p ∈ l, p.2.1 = true → p.2.2 = true :=
      fun p hp => h p (List.mem_cons_of_mem _ hp)
    cases h1 : a.2.1 with
    | true =>
      have h2 : a.2.2 = true := h a (List.mem_cons_self _ _) h1
      simp only [List.filter_cons, h1, h2, if_true, List.map_cons]
      exact List.Sublist.cons₂ _ (ih hal)
    | false =>
      cases h2 : a.2.2 with
      | true =>
        simp only [List.filter_cons, h1, h2, if_true, Bool.false_eq_true,
          if_false, List.map_cons]
        exact List.Sublist.cons _ (ih hal)
      | false =>
        simp only [List.filter_cons, h1, h2, Bool.false_eq_true, if_false]
        exact ih hal

theorem check_observability_flags (env : Env) (tg : Target) (mid : List ℚ) :
    ∀ p ∈ Target.check_observability env tg mid, p.1 = true → p.2 = true := by
  intro p hp
  unfold Target.check_observability at hp
  split at hp
  case _ t0 te =>
    rcases List.mem_map.mp hp with ⟨tt, _, rfl⟩
    intro hall
    simp only [tupleList, List.map_cons, List.map_nil, List.all_cons,
      List.all_nil, List.any_cons, List.any_nil, id_eq, Bool.and_eq_true,
      Bool.or_eq_true, Bool.and_true] at hall ⊢
    exact Or.inl hall.1
  case _ => simp at hp

/-- C6: `_calc_transits` preserves (and, when its guard fires, establishes)
the invariant that the fully-observable mid-time list is a sub-list of the
partially-observable one: each occurrence's `all(vis)` flag implies its
`any(vis)` flag and both stored lists filter the same candidate list by the
corresponding flag. -/
theorem C6_all_sublist_some (env : Env) (tg : Target)
    (h : tg.observable_targets_all_times.Sublist tg.observable_targets_some_times) :
    (Target.calc_transits env tg).observable_targets_all_times.Sublist
      (Target.calc_transits env tg).observable_targets_some_times := by
  unfold Target.calc_transits
  split
  case _ t0 dur =>
    split
    · apply filter_fst_sublist_filter_snd
      intro p hp h1
      obtain ⟨a, b⟩ := p
      exact check_observability_flags env tg _ b (List.of_mem_zip hp).2 h1
    · exact h
  case _ => exact h

/-- Witness for C6 at a concrete target (initial lists are empty, as the
constructor leaves them). -/
theorem C6_witness :
    (Target.calc_transits envPos tgPlain).observable_targets_all_times.Sublist
      (Target.calc_transits envPos tgPlain).observable_targets_some_times :=
  C6_all_sublist_some envPos tgPlain (List.Sublist.refl [])

/-! ## C4: the zip misalignment in `_calc_transits` -/

/-- Environment whose ephemeris oracle returns two candidate mid-times:
`50`, *before* the observation bracket, and `105`, inside it; every time is
observable and light-travel deltas are zero. -/
def envBug : Env where
  exo_hours_before := 1
  exo_hours_after := 1
  observable := fun _ => true
  ltt := fun _ => 0
  next_eclipses := fun _ _ _ _ => [50, 105]

/-- Periodic target with observation bracket `[100, 110]` (minutes). -/
def tgBug : Target where
  ra_j2000 := "05 00 00"
  dec_j2000 := "+20 00 00"
  name := "BUG"
  epoch := some 0
  period := some 1
  duration := some (FQ.val 1)
  observation_time := some 100
  observation_duration := some (FQ.val 10)
  observable_targets_all_times := []
  observable_targets_some_times := []

/-- C4 exhibit: with candidate mid-times `[50, 105]` (the first outside the
bracket `[100, 110]`, the second inside and fully observable),
`check_observability` filters the list before computing flags, so it
returns a single flag pair `(true, true)` for `105`; `_calc_transits` then
zips that single pair against the *unfiltered* candidate list and stores
`50` — a mid-time strictly before `observation_time` — in both
`observable_targets_all_times` and `observable_targets_some_times`. -/
theorem C4_bug_exhibit :
    (Target.calc_transits envBug tgBug).observable_targets_all_times = [50] ∧
    (Target.calc_transits envBug tgBug).observable_targets_some_times = [50] ∧
    Target.check_observability envBug tgBug
      (Target.midtransit_candidates envBug tgBug 100 10) = [(true, true)] ∧
    ¬ ((100 : ℚ) ≤ 50) := by
  refine ⟨?_, ?_, ?_, by norm_num⟩ <;>
    norm_num [Target.calc_transits, Target.check_observability,
      Target.midtransit_candidates, Target.transit_times, Target.half_duration,
      Target.observation_end_time, tupleList, fqLe, envBug, tgBug,
      List.filter_cons, List.zip,
      show ("05 00 00" : String) ≠ "" from by decide,
      show ("+20 00 00" : String) ≠ "" from by decide,
      show ("BUG" : String) ≠ "" from by decide]

/-! ## C10: constructor normalisation of the caller's targets -/

/-- Relation between a caller-supplied target and the same object after the
`TransitScheduler.__init__` normalisation loop: a `None` observation time is
replaced by the scheduler's start time, otherwise kept; a `None`
observation end time (equivalently, after the first step, a `None`
observation duration) is replaced so that the end time becomes the
scheduler's end time, otherwise the duration is kept; a target with both
fields already set is returned entirely unchanged. -/
def normalized_rel (sT eT : ℚ) (tg tg2 : Target) : Prop :=
  (tg.observation_time = none → tg2.observation_time = some sT) ∧
  (tg.observation_time ≠ none → tg2.observation_time = tg.observation_time) ∧
  (tg.observation_duration = none →
    tg2.observation_end_time = some (FQ.val eT)) ∧
  (tg.observation_duration ≠ none →
    tg2.observation_duration = tg.observation_duration) ∧
  (tg.observation_time ≠ none → tg.observation_end_time ≠ none → tg2 = tg)

theorem normalize_target_props (env : Env) (sT eT : ℚ) (tg : Target) :
    ∃ tg2, normalize_target env sT eT tg = .ok tg2 ∧
      normalized_rel sT eT tg tg2 := by
  simp only [normalize_target]
  by_cases h1 : tg.observation_time = none
  · rw [if_pos h1]
    have ht1 := (observation_time_set_fields env tg (some sT)).1
    have hd1 := (observation_time_set_fields env tg (some sT)).2
    cases hd : tg.observation_duration with
    | none =>
      have hend : (Target.observation_time_set env tg
          (some sT)).observation_end_time = none := by
        simp only [Target.observation_end_time, ht1, hd1, hd]
      rw [if_pos hend]
      simp only [Target.observation_end_time_set, ht1]
      refine ⟨_, rfl, ?_, ?_, ?_, ?_, ?_⟩
      · intro _
        rw [(observation_duration_set_fields env _ _).1, ht1]
      · intro hc; exact absurd h1 hc
      · intro _
        have hfs := observation_duration_set_fields env
          (Target.observation_time_set env tg (some sT)) (some (FQ.val (eT - sT)))
        have : sT + (eT - sT) = eT := by ring
        simp only [Target.observation_end_time, hfs.1, hfs.2, ht1, this]
      · intro hc; exact absurd hd hc
      · intro hc; exact absurd h1 hc
    | some d =>
      have hend : (Target.observation_time_set env tg
          (some sT)).observation_end_time ≠ none := by
        cases d <;> simp [Target.observation_end_time, ht1, hd1, hd]
      rw [if_neg hend]
      refine ⟨_, rfl, ?_, ?_, ?_, ?_, ?_⟩
      · intro _; exact ht1
      · intro hc; exact absurd h1 hc
      · intro hc; rw [hd] at hc; cases hc
      · intro _; rw [hd1]
      · intro hc; exact absurd h1 hc
  · rw [if_neg h1]
    obtain ⟨t0, ht0⟩ := Option.ne_none_iff_exists'.mp h1
    cases hd : tg.observation_duration with
    | none =>
      have hend : tg.observation_end_time = none := by
        simp only [Target.observation_end_time, ht0, hd]
      rw [if_pos hend]
      simp only [Target.observation_end_time_set, ht0]
      refine ⟨_, rfl, ?_, ?_, ?_, ?_, ?_⟩
      · intro hc; exact absurd hc h1
      · intro _
        exact (observation_duration_set_fields env tg _).1
      · intro _
        have hfs := observation_duration_set_fields env tg (some (FQ.val (eT - t0)))
        have : t0 + (eT - t0) = eT := by ring
        simp only [Target.observation_end_time, hfs.1, hfs.2, ht0, this]
      · intro hc; exact absurd hd hc
      · intro _ hc; exact absurd hend hc
    | some d =>
      have hend : tg.observation_end_time ≠ none := by
        cases d <;> simp [Target.observation_end_time, ht0, hd]
      rw [if_neg hend]
      refine ⟨_, rfl, ?_, ?_, ?_, ?_, ?_⟩
      · intro hc; exact absurd hc h1
      · intro _; rfl
      · intro hc; rw [hd] at hc; cases hc
      · intro _; rfl
      · intro _ _; rfl

/-- C10: the `TransitScheduler` constructor mutates the caller-supplied
targets in place: each target with a `None` observation time gets the
scheduler's start time, each target whose observation end time is (then
still) `None` gets the scheduler's end time — both assignments going
through the recomputing setters — and targets with both fields already set
are left unchanged. -/
theorem C10_ctor_normalizes (env : Env) (sT eT : ℚ) (ts : List Target) :
    ∃ ts2, init_targets env sT eT ts = .ok ts2 ∧
      List.Forall₂ (normalized_rel sT eT) ts ts2 := by
  induction ts with
  | nil => exact ⟨[], rfl, List.Forall₂.nil⟩
  | cons t ts ih =>
    rcases normalize_target_props env sT eT t with ⟨t2, ht, hrel⟩
    rcases ih with ⟨ts2, hts, hrels⟩
    exact ⟨t2 :: ts2, by simp only [init_targets, ht, hts],
      List.Forall₂.cons hrel hrels⟩

/-- Witness for C10 at a concrete one-target list. -/
theorem C10_witness :
    ∃ ts2, init_targets envPos 300 900 [tgPlain] = .ok ts2 ∧
      List.Forall₂ (normalized_rel 300 900) [tgPlain] ts2 :=
  C10_ctor_normalizes envPos 300 900 [tgPlain]
